import Mathlib

set_option maxHeartbeats 1000000
set_option maxRecDepth 4000

/-! Shallow embedding of `youtube.py`, a terminal chatbot that augments a
model conversation with YouTube transcript context.  Python strings are
modelled as `List Char`, Python dicts appearing in the source as structures,
and code that can raise as `Except`-valued functions.  External collaborators
(the HTTP fetch, the transcript backend, the completion backend) are
parameters whose outcomes are supplied to the embedded functions. -/

/-- Python exception classes that the embedded code can raise. -/
inductive PyError where
  | typeError
  | valueError
  | indexError
  | requestError
  | apiError
deriving DecidableEq, Repr

/-- `str.lower` (ASCII letters, which is all the CLI commands use). -/
def pyLower (s : List Char) : List Char := s.map Char.toLower

/-- The whitespace characters `str.strip` removes (ASCII subset). -/
def pyIsSpace (c : Char) : Bool :=
  c == ' ' || c == '\t' || c == '\n' || c == '\r' ||
    c == Char.ofNat 11 || c == Char.ofNat 12

/-- `str.strip`: drop whitespace from both ends. -/
def pyStrip (s : List Char) : List Char :=
  ((s.dropWhile pyIsSpace).reverse.dropWhile pyIsSpace).reverse

/-- Worker for `str.replace`: replaces every non-overlapping occurrence of
the pattern `p :: ps`, scanning left to right, by `rep`, exactly as
Python's `str.replace` does.  The `fuel` argument makes the recursion
structural; each step consumes at least one input character, so any
`fuel ≥ s.length` computes the replacement (the `0` case is unreachable
then). -/
def pyReplaceF (p : Char) (ps rep : List Char) : Nat → List Char → List Char
  | _, [] => []
  | 0, s => s
  | fuel + 1, c :: rest =>
    if (p :: ps).isPrefixOf (c :: rest) then
      rep ++ pyReplaceF p ps rep fuel (rest.drop ps.length)
    else
      c :: pyReplaceF p ps rep fuel rest

/-- `s.replace(pat, rep)`.  Python raises on an empty pattern; the source
never uses one, and we return `s` unchanged in that case. -/
def pyReplace (pat rep s : List Char) : List Char :=
  match pat with
  | [] => s
  | p :: ps => pyReplaceF p ps rep s.length s

/-- Worker for `str.split(sep)` on a non-empty separator `p :: ps`:
splits at every non-overlapping occurrence, scanning left to right.
Structural fuel, as in `pyReplaceF`. -/
def pySplitF (p : Char) (ps : List Char) (cur : List Char) :
    Nat → List Char → List (List Char)
  | _, [] => [cur.reverse]
  | 0, s => [cur.reverse ++ s]
  | fuel + 1, c :: rest =>
    if (p :: ps).isPrefixOf (c :: rest) then
      cur.reverse :: pySplitF p ps [] fuel (rest.drop ps.length)
    else
      pySplitF p ps (c :: cur) fuel rest

/-- `s.split(sep)` for a non-empty separator. -/
def pySplit (pat s : List Char) : List (List Char) :=
  match pat with
  | [] => [s]
  | p :: ps => pySplitF p ps [] s.length s

/-- One hexadecimal digit, as used by percent-decoding. -/
def hexDigit (c : Char) : Option Nat :=
  if '0' ≤ c ∧ c ≤ '9' then some (c.toNat - '0'.toNat)
  else if 'a' ≤ c ∧ c ≤ 'f' then some (c.toNat - 'a'.toNat + 10)
  else if 'A' ≤ c ∧ c ≤ 'F' then some (c.toNat - 'A'.toNat + 10)
  else none

/-- `urllib.parse.unquote`, modelled for ASCII data: each valid `%XY`
escape decodes to the character with code `16*X + Y`; an invalid escape is
kept literally.  (Multi-byte UTF-8 escape sequences, which never occur in
the URLs the claims are about, decode to individual code points.) -/
def pyUnquote : List Char → List Char
  | [] => []
  | '%' :: a :: b :: rest =>
    match hexDigit a, hexDigit b with
    | some hi, some lo => Char.ofNat (16 * hi + lo) :: pyUnquote rest
    | _, _ => '%' :: pyUnquote (a :: b :: rest)
  | c :: rest => c :: pyUnquote rest

/-- `' '.join(parts)`. -/
def joinSpace (parts : List (List Char)) : List Char :=
  List.intercalate [' '] parts

/-- Python's substring test `pat in s`. -/
def containsSub (pat : List Char) : List Char → Bool
  | [] => pat.isEmpty
  | c :: rest => pat.isPrefixOf (c :: rest) || containsSub pat rest

/-- One transcript segment as delivered by the transcript backend: a dict
with keys `text`, `start`, `duration`.  The numeric fields are Python
floats; no claim depends on their arithmetic, so they are modelled as
integers. -/
structure Segment where
  text : List Char
  start : Int
  duration : Int
deriving DecidableEq, Repr

/-- The non-breaking-space character U+00A0. -/
def nbsp : Char := Char.ofNat 160

/-- `t['text'].replace(u'\xa0', u' ').replace('\n', ' ')`: the text
normalization computed (line 114 of `youtube.py`) for a segment. -/
def fixSegText (s : List Char) : List Char :=
  pyReplace ['\n'] [' '] (pyReplace [nbsp] [' '] s)

/-- Python dict-literal union for segment dicts: in `{'text': v, **t}` the
entries are evaluated left to right and later keys win, so every key of
`t` — including `text` — overrides the earlier explicit entry. -/
def pyDictUnion (_earlier later : Segment) : Segment :=
  { text := later.text, start := later.start, duration := later.duration }

/-- The segment actually stored by `get_youtube_search_results`
(line 114): `{'text': t['text'].replace(u'\xa0', u' ').replace('\n', ' '), **t}`.
The spread `**t` comes after the explicit `'text'` entry, so it wins. -/
def storedSegment (t : Segment) : Segment :=
  pyDictUnion { t with text := fixSegText t.text } t

/-- One harvested context object (the dict built at lines 110–115). -/
structure ContextItem where
  url : List Char
  title : List Char
  video_id : List Char
  transcript : List Segment
deriving DecidableEq, Repr

/-- Chat message roles. -/
inductive Role where
  | system
  | user
  | assistant
deriving DecidableEq, Repr

/-- One chat-history entry.  The Python dicts carry a `context` key only
sometimes; absence is modelled as the empty list. -/
structure Message where
  role : Role
  content : List Char
  context : List ContextItem := []
deriving DecidableEq, Repr

/-- The system-prompt template (lines 124–127), parametric in the current
date string. -/
def systemPromptText (today : List Char) : List Char :=
  ("You are a helpful AI assistant who always responds in plain text and designed to be interacted with in a terminal. Sometimes you will be given youtube transcripts to provide context. Respond to the user as if you were a human. Current Date: ").data ++ today

/-- The chat history at process start: a single system message. -/
def initialChatHistory (today : List Char) : List Message :=
  [{ role := Role.system, content := systemPromptText today }]

/-- The mutable state of the main loop. -/
structure LoopState where
  running : Bool
  youtube_on : Bool
  chat_history : List Message
deriving DecidableEq, Repr

/-- The command dispatch at the top of the main loop (lines 283–310):
`some st'` when the input is a recognized command (the loop iterates or
stops without running a turn), `none` when the input starts a conversation
turn. -/
def handleCommandLow (low : List Char) (st : LoopState) : Option LoopState :=
  if low = "quit".data ∨ low = "q".data then
    some { st with running := false }
  else if low = "help".data then some st
  else if low = "history".data ∨ low = "h".data then some st
  else if low = "delete".data ∨ low = "d".data then
    some { st with chat_history := [] }
  else if low = "clear".data ∨ low = "c".data then some st
  else if low = "youtube".data ∨ low = "y".data then
    some { st with youtube_on := !st.youtube_on }
  else none

/-- Every branch compares `user_input.lower()` against the command words. -/
def handleCommand (user_input : List Char) (st : LoopState) : Option LoopState :=
  handleCommandLow (pyLower user_input) st

/-- Total character count of a history
(`sum([len(chat_msg['content']) for chat_msg in temp_chat_history])`, line 358). -/
def historyChars (h : List Message) : Nat :=
  (h.map (fun m => m.content.length)).sum

/-- Model selection (line 359):
`'gpt-4-1106-preview' if temp_chat_history_length > 50000 else 'gpt-3.5-turbo-1106'`. -/
def selectModel (n : Nat) : List Char :=
  if n > 50000 then "gpt-4-1106-preview".data else "gpt-3.5-turbo-1106".data

/-- C1: the spec claims every stored segment text is normalized (U+00A0
replaced by a space, newlines removed).  In the source the dict literal is
`{'text': <normalized>, **t}`, and the spread `**t` overrides the explicit
`'text'` entry, so the stored text is the original, un-normalized one.  At
the failing segment `{'text': 'a\xa0b', 'start': 0, 'duration': 1}` the
stored segment still contains U+00A0, while the normalization the code
computes (and then discards) would have produced `'a b'`. -/
theorem segment_text_normalization_bug :
    storedSegment ⟨['a', nbsp, 'b'], 0, 1⟩ = ⟨['a', nbsp, 'b'], 0, 1⟩ ∧
    nbsp ∈ (storedSegment ⟨['a', nbsp, 'b'], 0, 1⟩).text ∧
    fixSegText ['a', nbsp, 'b'] = ['a', ' ', 'b'] := by
  decide

/-- C3: counterexample — after the `d` (delete) command the chat history
has zero messages, not the one system message the claim states. -/
theorem delete_claim_counterexample :
    (handleCommand ("d".data)
        ⟨true, true, initialChatHistory ("2023-12-30".data)⟩).map
      (fun st => st.chat_history.length) = some 0 ∧
    ¬ (0 : Nat) = 1 := by
  decide

/-- C3 (amended): the delete command resets the chat history to the empty
list — the system message is discarded along with everything else — and
leaves the rest of the loop state unchanged. -/
theorem delete_resets_to_empty (st : LoopState) (inp : List Char)
    (h : pyLower inp = "delete".data ∨ pyLower inp = "d".data) :
    handleCommand inp st = some { st with chat_history := [] } := by
  rcases h with h | h <;>
    (unfold handleCommand
     rw [h]
     unfold handleCommandLow
     rw [if_neg (by decide), if_neg (by decide), if_neg (by decide),
         if_pos (by decide)])

/-- Witness for `delete_resets_to_empty` at the concrete input `"Delete"`. -/
theorem delete_resets_to_empty_witness :
    handleCommand ("Delete".data)
        ⟨true, false, initialChatHistory ("2023-12-30".data)⟩ =
      some ⟨true, false, []⟩ :=
  delete_resets_to_empty ⟨true, false, initialChatHistory ("2023-12-30".data)⟩
    ("Delete".data) (Or.inl (by decide))

/-- C7: the heavy model is selected exactly when the transient history's
total character count strictly exceeds 50,000; at exactly 50,000 the light
model is used, at 50,001 the heavy one, and a single message of 50,000
characters indeed counts as 50,000. -/
theorem tier_selection_threshold :
    (∀ n : Nat, selectModel n = ("gpt-4-1106-preview").data ↔ 50000 < n) ∧
    selectModel 50000 = ("gpt-3.5-turbo-1106").data ∧
    selectModel 50001 = ("gpt-4-1106-preview").data ∧
    historyChars [{ role := Role.user, content := List.replicate 50000 'a' }] =
      50000 := by
  refine ⟨?_, ?_, ?_, ?_⟩
  · intro n
    by_cases h : 50000 < n
    · simp [selectModel, h]
    · simp only [selectModel, if_neg h]
      constructor
      · intro heq
        exact absurd heq (by decide)
      · intro hn
        exact absurd hn h
  · decide
  · decide
  · simp only [historyChars, List.map_cons, List.map_nil, List.sum_cons,
      List.sum_nil, List.length_replicate]
    omega

/-- A candidate anchor element from the search-results page: its `href`
attribute and the text of the `h3` element found near it (if any). -/
structure Anchor where
  href : List Char
  h3 : Option (List Char)
deriving DecidableEq, Repr

/-- One entry of `google_search_youtube`'s result list (line 88). -/
structure SearchResult where
  url : List Char
  title : List Char
deriving DecidableEq, Repr

/-- `title.text.strip() if title else ""` (lines 69–73). -/
def anchorTitle (a : Anchor) : List Char :=
  match a.h3 with
  | some t => pyStrip t
  | none => []

/-- First index of a character; the caller turns `none` into the
`ValueError` that `str.index` raises. -/
def pyIndexOf (c : Char) (s : List Char) : Option Nat :=
  s.findIdx? (fun d => d == c)

/-- Lines 80–81: `url = url[url.index('=')+1:url.index('&')]` followed by
`urllib.parse.unquote(url)`. -/
def cleanUrl (url : List Char) : Except PyError (List Char) :=
  match pyIndexOf '=' url, pyIndexOf '&' url with
  | some i, some j => .ok (pyUnquote ((url.drop (i + 1)).take (j - (i + 1))))
  | _, _ => .error .valueError

/-- Does the result list already contain an entry with this url (line 84)? -/
def urlMem (acc : List SearchResult) (u : List Char) : Bool :=
  acc.any (fun r => r.url == u)

/-- The result-extraction loop of `google_search_youtube` (lines 66–88),
running over the anchors whose `href` starts with `'/url?q='`. -/
def extractLoop : List Anchor → List SearchResult → Except PyError (List SearchResult)
  | [], results => .ok results
  | a :: rest, results =>
    if containsSub ("youtube.com/watch").data a.href then
      match cleanUrl a.href with
      | .error e => .error e
      | .ok u =>
        if urlMem results u then extractLoop rest results
        else extractLoop rest (results ++ [⟨u, anchorTitle a⟩])
    else extractLoop rest results

/-- Extraction over a parsed page: filter to the redirect-prefixed anchors
(line 60), then run the loop. -/
def extractResults (anchors : List Anchor) : Except PyError (List SearchResult) :=
  extractLoop (anchors.filter (fun a => ("/url?q=").data.isPrefixOf a.href)) []

/-- `google_search_youtube` (lines 51–90).  The page fetch is a
collaborator; its outcome (`None` on a request error) is the parameter.
Evaluating `soup('a')` with `soup = None` raises `TypeError`. -/
def google_search_youtube (soup : Option (List Anchor)) :
    Except PyError (List SearchResult) :=
  match soup with
  | none => .error .typeError
  | some anchors => extractResults anchors

/-- Outcome of `YouTubeTranscriptApi.get_transcript` per video id; `none`
models any raised exception. -/
def TranscriptSource := List Char → Option (List Segment)

/-- `video['url'].split('v=')[1]` (line 105): `none` models the
`IndexError` raised when `'v='` does not occur (the surrounding `except`
then skips the video). -/
def pyVideoId (url : List Char) : Option (List Char) :=
  (pySplit ['v', '='] url).get? 1

/-- The context object stored per video (lines 110–115). -/
def mkContextItem (vid title : List Char) (transcript : List Segment) : ContextItem :=
  { url := ("https://www.youtube.com/watch?v=").data ++ vid
    title := title
    video_id := vid
    transcript := transcript.map storedSegment }

/-- The accumulation loop of `get_youtube_search_results` (lines 100–115):
stop once `num_results` transcripts are collected, skip videos with no
extractable id or no transcript. -/
def harvestLoop (ts : TranscriptSource) (num_results : Nat) :
    List SearchResult → List ContextItem → List ContextItem
  | [], transcripts => transcripts
  | v :: vs, transcripts =>
    if num_results ≤ transcripts.length then transcripts
    else
      match pyVideoId v.url with
      | none => harvestLoop ts num_results vs transcripts
      | some vid =>
        match ts vid with
        | none => harvestLoop ts num_results vs transcripts
        | some transcript =>
          harvestLoop ts num_results vs
            (transcripts ++ [mkContextItem vid v.title transcript])

/-- `get_youtube_search_results` (lines 93–117): search, then harvest at
most `num_results` transcript-bearing items.  The `soup` parameter is the
fetch outcome for the search-results page (the code requests
`num_results + 10` candidates, which only affects that page). -/
def get_youtube_search_results (soup : Option (List Anchor))
    (ts : TranscriptSource) (num_results : Nat) :
    Except PyError (List ContextItem) :=
  match google_search_youtube soup with
  | .error e => .error e
  | .ok videos => .ok (harvestLoop ts num_results videos [])


theorem harvestLoop_stop {ts : TranscriptSource} {n : Nat}
    (vs : List SearchResult) {acc : List ContextItem} (h : n ≤ acc.length) :
    harvestLoop ts n vs acc = acc := by
  cases vs with
  | nil => rfl
  | cons v vs => simp only [harvestLoop, if_pos h]

theorem harvestLoop_cons_noid {ts : TranscriptSource} {n : Nat}
    {v : SearchResult} {vs : List SearchResult} {acc : List ContextItem}
    (hlen : ¬ n ≤ acc.length) (hv : pyVideoId v.url = none) :
    harvestLoop ts n (v :: vs) acc = harvestLoop ts n vs acc := by
  simp only [harvestLoop, if_neg hlen]
  rw [hv]

theorem harvestLoop_cons_nots {ts : TranscriptSource} {n : Nat}
    {v : SearchResult} {vs : List SearchResult} {acc : List ContextItem}
    {vid : List Char} (hlen : ¬ n ≤ acc.length)
    (hv : pyVideoId v.url = some vid) (htr : ts vid = none) :
    harvestLoop ts n (v :: vs) acc = harvestLoop ts n vs acc := by
  simp only [harvestLoop, if_neg hlen, hv, htr]

theorem harvestLoop_cons_ok {ts : TranscriptSource} {n : Nat}
    {v : SearchResult} {vs : List SearchResult} {acc : List ContextItem}
    {vid : List Char} {transcript : List Segment} (hlen : ¬ n ≤ acc.length)
    (hv : pyVideoId v.url = some vid) (htr : ts vid = some transcript) :
    harvestLoop ts n (v :: vs) acc =
      harvestLoop ts n vs (acc ++ [mkContextItem vid v.title transcript]) := by
  simp only [harvestLoop, if_neg hlen, hv, htr]

theorem harvestLoop_length_le (ts : TranscriptSource) (n : Nat) :
    ∀ (vs : List SearchResult) (acc : List ContextItem),
      acc.length ≤ n → (harvestLoop ts n vs acc).length ≤ n := by
  intro vs
  induction vs with
  | nil => intro acc h; simpa [harvestLoop] using h
  | cons v vs ih =>
    intro acc h
    by_cases hlen : n ≤ acc.length
    · rw [harvestLoop_stop (v :: vs) hlen]; exact h
    · cases hv : pyVideoId v.url with
      | none => rw [harvestLoop_cons_noid hlen hv]; exact ih acc h
      | some vid =>
        cases htr : ts vid with
        | none => rw [harvestLoop_cons_nots hlen hv htr]; exact ih acc h
        | some transcript =>
          rw [harvestLoop_cons_ok hlen hv htr]
          apply ih
          simp only [List.length_append, List.length_cons, List.length_nil]
          omega

theorem harvestLoop_append_stop (ts : TranscriptSource) (n : Nat) :
    ∀ (vs extra : List SearchResult) (acc : List ContextItem),
      (harvestLoop ts n vs acc).length = n →
      harvestLoop ts n (vs ++ extra) acc = harvestLoop ts n vs acc := by
  intro vs
  induction vs with
  | nil =>
    intro extra acc h
    simp only [harvestLoop, List.nil_append] at h ⊢
    exact harvestLoop_stop extra (le_of_eq h.symm)
  | cons v vs ih =>
    intro extra acc h
    by_cases hlen : n ≤ acc.length
    · rw [List.cons_append, harvestLoop_stop (v :: (vs ++ extra)) hlen,
          harvestLoop_stop (v :: vs) hlen]
    · cases hv : pyVideoId v.url with
      | none =>
        rw [harvestLoop_cons_noid hlen hv] at h
        rw [List.cons_append, harvestLoop_cons_noid hlen hv,
            harvestLoop_cons_noid hlen hv, ih extra acc h]
      | some vid =>
        cases htr : ts vid with
        | none =>
          rw [harvestLoop_cons_nots hlen hv htr] at h
          rw [List.cons_append, harvestLoop_cons_nots hlen hv htr,
              harvestLoop_cons_nots hlen hv htr, ih extra acc h]
        | some transcript =>
          rw [harvestLoop_cons_ok hlen hv htr] at h
          rw [List.cons_append, harvestLoop_cons_ok hlen hv htr,
              harvestLoop_cons_ok hlen hv htr, ih extra _ h]

theorem harvestLoop_transcripts (ts : TranscriptSource) (n : Nat)
    (hts : ∀ v l, ts v = some l → l ≠ []) :
    ∀ (vs : List SearchResult) (acc : List ContextItem),
      (∀ item ∈ acc, item.transcript ≠ []) →
      ∀ item ∈ harvestLoop ts n vs acc, item.transcript ≠ [] := by
  intro vs
  induction vs with
  | nil => intro acc hacc; simpa [harvestLoop] using hacc
  | cons v vs ih =>
    intro acc hacc
    by_cases hlen : n ≤ acc.length
    · rw [harvestLoop_stop (v :: vs) hlen]; exact hacc
    · cases hv : pyVideoId v.url with
      | none => rw [harvestLoop_cons_noid hlen hv]; exact ih acc hacc
      | some vid =>
        cases htr : ts vid with
        | none => rw [harvestLoop_cons_nots hlen hv htr]; exact ih acc hacc
        | some transcript =>
          rw [harvestLoop_cons_ok hlen hv htr]
          apply ih
          intro item hitem
          rcases List.mem_append.mp hitem with hmem | hmem
          · exact hacc item hmem
          · rcases List.mem_singleton.mp hmem with rfl
            have hne := hts vid transcript htr
            simp only [mkContextItem, ne_eq, List.map_eq_nil_iff]
            exact hne

/-- Everything `harvestLoop` adds to the accumulator has the canonical url
shape, and its transcript comes from the transcript source at its id, which
in turn was extracted from some candidate url in the list. -/
theorem harvestLoop_shape (ts : TranscriptSource) (n : Nat) :
    ∀ (vs : List SearchResult) (acc : List ContextItem),
      ∀ item ∈ harvestLoop ts n vs acc,
        item ∈ acc ∨
          (item.url = ("https://www.youtube.com/watch?v=").data ++ item.video_id ∧
           (∃ t, ts item.video_id = some t ∧
              item.transcript = List.map storedSegment t) ∧
           ∃ v ∈ vs, pyVideoId v.url = some item.video_id) := by
  intro vs
  induction vs with
  | nil => intro acc item h; exact Or.inl (by simpa [harvestLoop] using h)
  | cons v vs ih =>
    intro acc item h
    have weaken :
        (∃ w ∈ vs, pyVideoId w.url = some item.video_id) →
        ∃ w ∈ v :: vs, pyVideoId w.url = some item.video_id := by
      rintro ⟨w, hw, hid⟩
      exact ⟨w, List.mem_cons_of_mem v hw, hid⟩
    by_cases hlen : n ≤ acc.length
    · rw [harvestLoop_stop (v :: vs) hlen] at h; exact Or.inl h
    · cases hv : pyVideoId v.url with
      | none =>
        rw [harvestLoop_cons_noid hlen hv] at h
        rcases ih acc item h with hmem | ⟨h1, h2, h3⟩
        · exact Or.inl hmem
        · exact Or.inr ⟨h1, h2, weaken h3⟩
      | some vid =>
        cases htr : ts vid with
        | none =>
          rw [harvestLoop_cons_nots hlen hv htr] at h
          rcases ih acc item h with hmem | ⟨h1, h2, h3⟩
          · exact Or.inl hmem
          · exact Or.inr ⟨h1, h2, weaken h3⟩
        | some transcript =>
          rw [harvestLoop_cons_ok hlen hv htr] at h
          rcases ih _ item h with hmem | ⟨h1, h2, h3⟩
          · rcases List.mem_append.mp hmem with hmem' | hmem'
            · exact Or.inl hmem'
            · rcases List.mem_singleton.mp hmem' with rfl
              refine Or.inr ⟨rfl, ⟨transcript, ?_, rfl⟩,
                ⟨v, List.mem_cons_self v vs, ?_⟩⟩
              · exact htr
              · exact hv
          · exact Or.inr ⟨h1, h2, weaken h3⟩

/-- A transcript source that always succeeds with one non-empty segment,
used to instantiate collaborator-dependent theorems. -/
def sampleTs : TranscriptSource := fun _ => some [⟨['h', 'i'], 0, 1⟩]

/-- Whether a harvest outcome is a normal return (`True`/`ok`) rather than
a propagating exception. -/
def isOkResult : Except PyError (List ContextItem) → Bool
  | .ok _ => true
  | .error _ => false

theorem sampleTs_ne_nil : ∀ v l, sampleTs v = some l → l ≠ [] := by
  intro v l h
  have : [⟨['h', 'i'], 0, 1⟩] = l := Option.some.inj h
  rw [← this]
  decide

/-- C2: the spec claims that when the results-page fetch fails the
harvester returns an empty list without propagating an error.  In the
source, `get_soup` returns the sentinel `None` on a request error, and
`google_search_youtube` immediately evaluates `soup('a')`, raising
`TypeError`; the error propagates out of `get_youtube_search_results`
instead of an empty list being returned. -/
theorem search_failure_propagates (ts : TranscriptSource) (n : Nat) :
    google_search_youtube none = .error .typeError ∧
    get_youtube_search_results none ts n = .error .typeError ∧
    isOkResult (get_youtube_search_results none ts n) = false := by
  exact ⟨rfl, rfl, rfl⟩

/-- C8: harvest returns at most `n` items; every item carries a non-empty
transcript whenever the transcript source only succeeds with non-empty
segment lists (the collaborator's contract: a transcript or a failure);
and once the accumulator reaches `n` items, appending further candidates
to the search results changes nothing. -/
theorem harvest_bounded (ts : TranscriptSource)
    (hts : ∀ v l, ts v = some l → l ≠ [])
    (soup : List Anchor) (n : Nat) (res : List ContextItem)
    (hres : get_youtube_search_results (some soup) ts n = .ok res)
    (videos extra : List SearchResult) (acc : List ContextItem)
    (hfull : (harvestLoop ts n videos acc).length = n) :
    res.length ≤ n ∧
    (∀ item ∈ res, item.transcript ≠ []) ∧
    harvestLoop ts n (videos ++ extra) acc = harvestLoop ts n videos acc := by
  refine ⟨?_, ?_, harvestLoop_append_stop ts n videos extra acc hfull⟩ <;>
  · simp only [get_youtube_search_results] at hres
    cases hg : google_search_youtube (some soup) with
    | error e => rw [hg] at hres; exact absurd hres (by intro h; exact Except.noConfusion h)
    | ok videos' =>
      rw [hg] at hres
      have hres' : harvestLoop ts n videos' [] = res := by
        have := Except.ok.inj hres
        exact this
      rw [← hres']
      first
      | exact harvestLoop_length_le ts n videos' [] (Nat.zero_le n)
      | exact harvestLoop_transcripts ts n hts videos' []
          (by intro item h; exact absurd h (List.not_mem_nil item))

/-- Witness for `harvest_bounded` at concrete inputs: empty search page,
`n = 1`, one collected item, one extra candidate. -/
theorem harvest_bounded_witness :
    ([] : List ContextItem).length ≤ 1 ∧
    (∀ item ∈ ([] : List ContextItem), item.transcript ≠ []) ∧
    harvestLoop sampleTs 1
        ([⟨("x?v=abc").data, ("T").data⟩] ++ [⟨("y?v=def").data, ("U").data⟩]) [] =
      harvestLoop sampleTs 1 [⟨("x?v=abc").data, ("T").data⟩] [] :=
  harvest_bounded sampleTs sampleTs_ne_nil [] 1 [] rfl
    [⟨("x?v=abc").data, ("T").data⟩] [⟨("y?v=def").data, ("U").data⟩] [] (by decide)

/-- The anchor used to exhibit C10's counterexample: a redirect link whose
decoded destination carries an extra `t=10` query parameter. -/
def anchorWithParams : Anchor :=
  ⟨("/url?q=https://www.youtube.com/watch%3Fv%3Dabc%26t%3D10&sa=U").data,
   some (("T").data)⟩

/-- C10: counterexample — for the candidate whose decoded destination is
`https://www.youtube.com/watch?v=abc&t=10`, the stored `video_id` is
`'abc&t=10'` (everything after `'v='`), not the bare identifier `'abc'`:
extra query parameters are not canonicalized away, and the stored url is
not the canonical watch url of the video. -/
theorem harvest_url_counterexample :
    get_youtube_search_results (some [anchorWithParams]) sampleTs 3 =
      .ok [{ url := ("https://www.youtube.com/watch?v=abc&t=10").data,
             title := ("T").data,
             video_id := ("abc&t=10").data,
             transcript := [⟨['h', 'i'], 0, 1⟩] }] ∧
    ¬ (("https://www.youtube.com/watch?v=abc&t=10").data =
        ("https://www.youtube.com/watch?v=abc").data) ∧
    '&' ∈ ("abc&t=10").data := by
  refine ⟨rfl, by decide, by decide⟩

/-- C10 (amended): every harvested item's stored url is
`'https://www.youtube.com/watch?v=' + video_id`, where `video_id` is the
segment of the candidate url between the first `'v='` and the next
occurrence of `'v='` (the rest of the string if there is none) — extra
query parameters after `v=` are retained inside `video_id` rather than
stripped — and the item's transcript is what the transcript source
returned for exactly that id. -/
theorem harvest_url_shape (soup : List Anchor) (ts : TranscriptSource)
    (n : Nat) (res : List ContextItem)
    (hres : get_youtube_search_results (some soup) ts n = .ok res) :
    ∀ item ∈ res,
      item.url = ("https://www.youtube.com/watch?v=").data ++ item.video_id ∧
      (∃ t, ts item.video_id = some t ∧
         item.transcript = List.map storedSegment t) ∧
      ∃ videos, google_search_youtube (some soup) = .ok videos ∧
        ∃ v ∈ videos, pyVideoId v.url = some item.video_id := by
  intro item hitem
  simp only [get_youtube_search_results] at hres
  cases hg : google_search_youtube (some soup) with
  | error e =>
    rw [hg] at hres
    exact absurd hres (by intro h; exact Except.noConfusion h)
  | ok videos =>
    rw [hg] at hres
    have hres' : harvestLoop ts n videos [] = res := Except.ok.inj hres
    rw [← hres'] at hitem
    rcases harvestLoop_shape ts n videos [] item hitem with hmem | ⟨h1, h2, h3⟩
    · exact absurd hmem (List.not_mem_nil item)
    · exact ⟨h1, h2, videos, rfl, h3⟩

/-- The ContextItem that the counterexample page harvests. -/
def paramItem : ContextItem :=
  { url := ("https://www.youtube.com/watch?v=abc&t=10").data
    title := ("T").data
    video_id := ("abc&t=10").data
    transcript := [⟨['h', 'i'], 0, 1⟩] }

/-- Witness for `harvest_url_shape` at the concrete counterexample page
and its single harvested item. -/
theorem harvest_url_shape_witness :
    paramItem.url = ("https://www.youtube.com/watch?v=").data ++ paramItem.video_id ∧
    (∃ t, sampleTs paramItem.video_id = some t ∧
       paramItem.transcript = List.map storedSegment t) ∧
    ∃ videos, google_search_youtube (some [anchorWithParams]) = .ok videos ∧
      ∃ v ∈ videos, pyVideoId v.url = some paramItem.video_id :=
  harvest_url_shape [anchorWithParams] sampleTs 3 [paramItem] rfl paramItem
    (List.mem_singleton.mpr rfl)

/-- Specification-side candidate stream: the entries the extraction loop
would consider, in page order, *without* deduplication — each filtered
anchor that passes the watch-url test, with its cleaned url and title.
Used to state what `google_search_youtube` refines. -/
def candidateLoop : List Anchor → Except PyError (List SearchResult)
  | [] => .ok []
  | a :: rest =>
    if containsSub ("youtube.com/watch").data a.href then
      match cleanUrl a.href with
      | .error e => .error e
      | .ok u =>
        match candidateLoop rest with
        | .error e => .error e
        | .ok cs => .ok (⟨u, anchorTitle a⟩ :: cs)
    else candidateLoop rest

/-- Specification-side candidate stream over a parsed page. -/
def candidateEntries (anchors : List Anchor) : Except PyError (List SearchResult) :=
  candidateLoop (anchors.filter (fun a => ("/url?q=").data.isPrefixOf a.href))

/-- Specification-side deduplication: scan in order and keep an entry only
when its url has not been seen before — i.e. keep exactly the first
occurrence of every url. -/
def dedupKeepFirstAux (seen : List (List Char)) : List SearchResult → List SearchResult
  | [] => []
  | r :: rest =>
    if seen.any (fun u => u == r.url) then dedupKeepFirstAux seen rest
    else r :: dedupKeepFirstAux (seen ++ [r.url]) rest

/-- Deduplicate a candidate list, keeping first occurrences. -/
def dedupKeepFirst (cands : List SearchResult) : List SearchResult :=
  dedupKeepFirstAux [] cands

theorem extractLoop_cons_skip {a : Anchor} {rest : List Anchor}
    {acc : List SearchResult}
    (hin : containsSub ("youtube.com/watch").data a.href = false) :
    extractLoop (a :: rest) acc = extractLoop rest acc := by
  simp only [extractLoop, hin, Bool.false_eq_true, if_false]

theorem extractLoop_cons_err {a : Anchor} {rest : List Anchor}
    {acc : List SearchResult} {e : PyError}
    (hin : containsSub ("youtube.com/watch").data a.href = true)
    (hcl : cleanUrl a.href = .error e) :
    extractLoop (a :: rest) acc = .error e := by
  simp only [extractLoop, hin, if_true, hcl]

theorem extractLoop_cons_dup {a : Anchor} {rest : List Anchor}
    {acc : List SearchResult} {u : List Char}
    (hin : containsSub ("youtube.com/watch").data a.href = true)
    (hcl : cleanUrl a.href = .ok u) (hmem : urlMem acc u = true) :
    extractLoop (a :: rest) acc = extractLoop rest acc := by
  simp only [extractLoop, hin, if_true, hcl, hmem]

theorem extractLoop_cons_new {a : Anchor} {rest : List Anchor}
    {acc : List SearchResult} {u : List Char}
    (hin : containsSub ("youtube.com/watch").data a.href = true)
    (hcl : cleanUrl a.href = .ok u) (hmem : urlMem acc u = false) :
    extractLoop (a :: rest) acc =
      extractLoop rest (acc ++ [⟨u, anchorTitle a⟩]) := by
  simp only [extractLoop, hin, if_true, hcl, hmem, Bool.false_eq_true, if_false]

theorem candidateLoop_cons_skip {a : Anchor} {rest : List Anchor}
    (hin : containsSub ("youtube.com/watch").data a.href = false) :
    candidateLoop (a :: rest) = candidateLoop rest := by
  simp only [candidateLoop, hin, Bool.false_eq_true, if_false]

theorem candidateLoop_cons_err {a : Anchor} {rest : List Anchor} {e : PyError}
    (hin : containsSub ("youtube.com/watch").data a.href = true)
    (hcl : cleanUrl a.href = .error e) :
    candidateLoop (a :: rest) = .error e := by
  simp only [candidateLoop, hin, if_true, hcl]

theorem candidateLoop_cons_ok {a : Anchor} {rest : List Anchor}
    {u : List Char} {cs : List SearchResult}
    (hin : containsSub ("youtube.com/watch").data a.href = true)
    (hcl : cleanUrl a.href = .ok u) (hrest : candidateLoop rest = .ok cs) :
    candidateLoop (a :: rest) = .ok (⟨u, anchorTitle a⟩ :: cs) := by
  simp only [candidateLoop, hin, if_true, hcl, hrest]

theorem candidateLoop_cons_okerr {a : Anchor} {rest : List Anchor}
    {u : List Char} {e : PyError}
    (hin : containsSub ("youtube.com/watch").data a.href = true)
    (hcl : cleanUrl a.href = .ok u) (hrest : candidateLoop rest = .error e) :
    candidateLoop (a :: rest) = .error e := by
  simp only [candidateLoop, hin, if_true, hcl, hrest]

/-- The extraction loop refines the candidate stream followed by
keep-first deduplication (with the accumulated urls as already seen). -/
theorem extractLoop_eq_dedup :
    ∀ (l : List Anchor) (acc : List SearchResult),
      extractLoop l acc =
        match candidateLoop l with
        | .error e => .error e
        | .ok cs =>
            .ok (acc ++ dedupKeepFirstAux (acc.map (fun r => r.url)) cs) := by
  intro l
  induction l with
  | nil =>
    intro acc
    simp [extractLoop, candidateLoop, dedupKeepFirstAux]
  | cons a rest ih =>
    intro acc
    cases hin : containsSub ("youtube.com/watch").data a.href with
    | false =>
      rw [extractLoop_cons_skip hin, candidateLoop_cons_skip hin]
      exact ih acc
    | true =>
      cases hcl : cleanUrl a.href with
      | error e => rw [extractLoop_cons_err hin hcl, candidateLoop_cons_err hin hcl]
      | ok u =>
        cases hrest : candidateLoop rest with
        | error e =>
          rw [candidateLoop_cons_okerr hin hcl hrest]
          cases hmem : urlMem acc u with
          | true =>
            rw [extractLoop_cons_dup hin hcl hmem, ih acc, hrest]
          | false =>
            rw [extractLoop_cons_new hin hcl hmem, ih _, hrest]
        | ok cs =>
          rw [candidateLoop_cons_ok hin hcl hrest]
          have hany : (acc.map (fun r => r.url)).any (fun x => x == u) = urlMem acc u := by
            rw [urlMem]
            induction acc with
            | nil => rfl
            | cons r rs ihacc => simp only [List.map_cons, List.any_cons, ihacc]
          cases hmem : urlMem acc u with
          | true =>
            rw [extractLoop_cons_dup hin hcl hmem, ih acc, hrest]
            simp only [dedupKeepFirstAux, hany, hmem, if_true]
          | false =>
            rw [extractLoop_cons_new hin hcl hmem, ih _, hrest]
            simp only [dedupKeepFirstAux, hany, hmem, Bool.false_eq_true, if_false,
              List.map_append, List.map_cons, List.map_nil, List.append_assoc,
              List.cons_append, List.nil_append]

/-- Keep-first deduplication emits no url twice, and nothing whose url was
already seen. -/
theorem dedupKeepFirstAux_nodup :
    ∀ (l : List SearchResult) (seen : List (List Char)),
      ((dedupKeepFirstAux seen l).map (fun r => r.url)).Nodup ∧
      ∀ r ∈ dedupKeepFirstAux seen l, seen.any (fun u => u == r.url) = false := by
  intro l
  induction l with
  | nil =>
    intro seen
    constructor
    · simp [dedupKeepFirstAux]
    · intro r hr
      simp [dedupKeepFirstAux] at hr
  | cons r rest ih =>
    intro seen
    cases hseen : seen.any (fun u => u == r.url) with
    | true =>
      simp only [dedupKeepFirstAux, hseen, if_true]
      exact ih seen
    | false =>
      simp only [dedupKeepFirstAux, hseen, Bool.false_eq_true, if_false]
      obtain ⟨ih1, ih2⟩ := ih (seen ++ [r.url])
      constructor
      · simp only [List.map_cons, List.nodup_cons]
        refine ⟨?_, ih1⟩
        intro hmem
        rcases List.mem_map.mp hmem with ⟨x, hx, hxu⟩
        have hfalse := ih2 x hx
        rw [List.any_append] at hfalse
        have : ([r.url].any (fun u => u == x.url)) = false :=
          (Bool.or_eq_false_iff.mp hfalse).2
        simp only [List.any_cons, List.any_nil, Bool.or_false] at this
        rw [hxu] at this
        simp at this
      · intro x hx
        rcases List.mem_cons.mp hx with rfl | hx'
        · exact hseen
        · have hfalse := ih2 x hx'
          rw [List.any_append] at hfalse
          exact (Bool.or_eq_false_iff.mp hfalse).1

/-- C9: when the result extraction succeeds, the returned list has no
duplicate urls, and it is exactly the candidate stream (in page order)
deduplicated by keeping the first occurrence of each url — so two
candidate anchors with equal decoded destinations contribute one entry,
the earlier one. -/
theorem search_dedup_keeps_first (anchors : List Anchor)
    (res : List SearchResult) (h : extractResults anchors = .ok res) :
    ((res.map (fun r => r.url)).Nodup) ∧
    ∃ cands, candidateEntries anchors = .ok cands ∧
      res = dedupKeepFirst cands := by
  have heq := extractLoop_eq_dedup
    (anchors.filter (fun a => ("/url?q=").data.isPrefixOf a.href)) []
  rw [extractResults] at h
  cases hcl : candidateLoop
      (anchors.filter (fun a => ("/url?q=").data.isPrefixOf a.href)) with
  | error e =>
    rw [hcl] at heq
    rw [heq] at h
    exact absurd h (by intro hx; exact Except.noConfusion hx)
  | ok cs =>
    rw [hcl] at heq
    rw [heq] at h
    have hres : res = dedupKeepFirstAux [] cs := by
      have := Except.ok.inj h
      simp only [List.map_nil, List.nil_append] at this
      exact this.symm
    constructor
    · rw [hres]
      exact (dedupKeepFirstAux_nodup cs []).1
    · exact ⟨cs, hcl, by rw [hres]; rfl⟩

/-- The page used to instantiate `search_dedup_keeps_first`: two redirect
anchors decoding to the same watch url (with different titles) and one
non-redirect anchor. -/
def anchorsDup : List Anchor :=
  [⟨("/url?q=https://www.youtube.com/watch%3Fv%3Dabc&sa=U").data,
    some (("A").data)⟩,
   ⟨("/m").data, none⟩,
   ⟨("/url?q=https://www.youtube.com/watch%3Fv%3Dabc&sa=U").data,
    some (("B").data)⟩]

/-- Witness for `search_dedup_keeps_first`: the duplicate candidate is
dropped and the first occurrence (title `A`) is kept. -/
theorem search_dedup_keeps_first_witness :
    ((([⟨("https://www.youtube.com/watch?v=abc").data, ("A").data⟩] :
        List SearchResult).map (fun r => r.url)).Nodup) ∧
    ∃ cands, candidateEntries anchorsDup = .ok cands ∧
      ([⟨("https://www.youtube.com/watch?v=abc").data, ("A").data⟩] :
        List SearchResult) = dedupKeepFirst cands :=
  search_dedup_keeps_first anchorsDup
    [⟨("https://www.youtube.com/watch?v=abc").data, ("A").data⟩] rfl

/-- `search_query_prompt(user_input)` (lines 234–247). -/
def searchQueryPrompt (user_input : List Char) : Message :=
  { role := Role.user
    content :=
      ("\n            Please generate a concise natural language search query for the following user input which would be used to search google:\n            ").data ++
      user_input ++
      ("\n\n            Do not include any intro or exit text, only return only the natural language search query.\n            Search Query:\n        ").data }

/-- `context_final_prompt(user_input)` (lines 250–264). -/
def contextFinalPrompt (user_input : List Char) : Message :=
  { role := Role.user
    content :=
      ("\n            Please respond to the following user input with the context provided:\n            ").data ++
      user_input ++
      ("\n\n            Please cite the context in your response and provide inline citations with a source list at the bottom of your response.    \n            Example inline citation: [1]\n            Example source list: [1] https://www.youtube.com/watch?v=JWzDZ7wo0XQ \"The History of the World: Every Year\"\n        ").data }

/-- The duration rendered into a context message (line 347):
`transcript[-1]['start'] + transcript[-1]['duration'] - transcript[0]['start']`.
The Python values are floats printed with float formatting; the integer
model prints the integer — no claim depends on this text.  (Python raises
`IndexError` on an empty transcript; we default the endpoints to 0.) -/
def durationText (transcript : List Segment) : List Char :=
  let first := transcript.headD ⟨[], 0, 0⟩
  let last := transcript.getLastD ⟨[], 0, 0⟩
  (toString (last.start + last.duration - first.start)).data

/-- The assistant-role context message appended to the transient history
for one harvested item (lines 341–351). -/
def contextMessage (t : ContextItem) : Message :=
  { role := Role.assistant
    content :=
      ("\n                    CONTEXT\n                    - YouTube URL: ").data ++
      t.url ++
      ("\n                    - Video Title: ").data ++
      t.title ++
      ("\n                    - Video Duration: ").data ++
      durationText t.transcript ++
      (" seconds\n                    - YouTube Transcript:\n                    ").data ++
      joinSpace (t.transcript.map (fun part => part.text)) ++
      ("\n                    ").data }

/-- The user message appended at turn entry (lines 313–316). -/
def mkUserMsg (user_input : List Char) : Message :=
  { role := Role.user, content := user_input }

/-- The search-query post-processing (lines 326–328):
`search_query.replace('\n', ' ').replace('\t', ' ').replace('  ', ' ').strip()`
followed by `.replace('"', '')`. -/
def cleanSearchQuery (s : List Char) : List Char :=
  pyReplace ['"'] []
    (pyStrip (pyReplace [' ', ' '] [' ']
      (pyReplace ['\t'] [' '] (pyReplace ['\n'] [' '] s))))

/-- One conversation turn of the main loop (lines 312–374) for a
non-command input.  Collaborator outcomes are parameters: `queryGateway`
is the result of the first `chat(...)` call (line 324), `soupFor q` the
fetched page for search query `q`, `ts` the transcript backend, and
`replyGateway` the result of the streaming `chat(...)` call (line 364).
An `Except.error` result carries the Python exception together with the
value the global `chat_history` holds at the moment the exception
propagates out of the loop; an `Except.ok` result carries the committed
history and the model name used. -/
def processTurn (youtube_on : Bool) (chat_history : List Message)
    (user_input : List Char) (queryGateway : Except PyError (List Char))
    (soupFor : List Char → Option (List Anchor)) (ts : TranscriptSource)
    (replyGateway : Except PyError (List Char)) :
    Except (PyError × List Message) (List Message × List Char) :=
  let ch1 := chat_history ++ [mkUserMsg user_input]
  let temp := ch1
  if youtube_on then
    match queryGateway with
    | .error e => .error (e, ch1 ++ [searchQueryPrompt user_input])
    | .ok raw =>
      let search_query := cleanSearchQuery raw
      match get_youtube_search_results (soupFor search_query) ts 3 with
      | .error e => .error (e, ch1)
      | .ok transcript_objects =>
        let temp2 := temp ++ transcript_objects.map contextMessage ++
          [contextFinalPrompt user_input]
        let model := selectModel (historyChars temp2)
        match replyGateway with
        | .error e => .error (e, ch1)
        | .ok ai_response =>
          .ok (ch1 ++ [{ role := Role.system, content := ai_response,
                         context := transcript_objects }], model)
  else
    let model := selectModel (historyChars temp)
    match replyGateway with
    | .error e => .error (e, ch1)
    | .ok ai_response =>
      .ok (ch1 ++ [{ role := Role.system, content := ai_response,
                     context := [] }], model)

theorem mem_of_dropWhile {α : Type} {p : α → Bool} :
    ∀ {l : List α} {x : α}, x ∈ l.dropWhile p → x ∈ l := by
  intro l
  induction l with
  | nil => intro x h; simp [List.dropWhile] at h
  | cons c rest ih =>
    intro x h
    rw [List.dropWhile] at h
    cases hc : p c with
    | true => rw [hc] at h; exact List.mem_cons_of_mem c (ih h)
    | false => rw [hc] at h; exact h

theorem mem_pyStrip {x : Char} {s : List Char} (h : x ∈ pyStrip s) : x ∈ s := by
  rw [pyStrip] at h
  rw [List.mem_reverse] at h
  have h1 := mem_of_dropWhile h
  rw [List.mem_reverse] at h1
  exact mem_of_dropWhile h1

theorem mem_pyReplaceF {x : Char} (p : Char) (ps rep : List Char) :
    ∀ (fuel : Nat) (s : List Char),
      x ∈ pyReplaceF p ps rep fuel s → x ∈ rep ∨ x ∈ s := by
  intro fuel
  induction fuel with
  | zero =>
    intro s h
    cases s with
    | nil => simp [pyReplaceF] at h
    | cons c rest => exact Or.inr (by simpa [pyReplaceF] using h)
  | succ fuel ih =>
    intro s h
    cases s with
    | nil => simp [pyReplaceF] at h
    | cons c rest =>
      rw [pyReplaceF] at h
      cases hpre : (p :: ps).isPrefixOf (c :: rest) with
      | true =>
        rw [hpre, if_pos rfl] at h
        rcases List.mem_append.mp h with hx | hx
        · exact Or.inl hx
        · rcases ih _ hx with hx' | hx'
          · exact Or.inl hx'
          · have : x ∈ rest := List.mem_of_mem_drop hx'
            exact Or.inr (List.mem_cons_of_mem c this)
      | false =>
        rw [hpre] at h
        simp only [Bool.false_eq_true, if_false] at h
        rcases List.mem_cons.mp h with rfl | hx
        · exact Or.inr (List.mem_cons_self x rest)
        · rcases ih rest hx with hx' | hx'
          · exact Or.inl hx'
          · exact Or.inr (List.mem_cons_of_mem c hx')

theorem mem_pyReplace {x p : Char} {ps rep s : List Char}
    (h : x ∈ pyReplace (p :: ps) rep s) : x ∈ rep ∨ x ∈ s :=
  mem_pyReplaceF p ps rep s.length s h

theorem not_mem_pyReplaceF_single {a : Char} {rep : List Char} (ha : a ∉ rep) :
    ∀ (fuel : Nat) (s : List Char), s.length ≤ fuel →
      a ∉ pyReplaceF a [] rep fuel s := by
  intro fuel
  induction fuel with
  | zero =>
    intro s hlen
    have : s = [] := List.eq_nil_of_length_eq_zero (Nat.le_zero.mp hlen)
    subst this
    simp [pyReplaceF]
  | succ fuel ih =>
    intro s hlen
    cases s with
    | nil => simp [pyReplaceF]
    | cons c rest =>
      rw [pyReplaceF]
      cases hpre : ([a] : List Char).isPrefixOf (c :: rest) with
      | true =>
        rw [if_pos rfl]
        intro hmem
        rcases List.mem_append.mp hmem with hx | hx
        · exact ha hx
        · have hlen' : rest.length ≤ fuel := by
            simpa [List.length_cons] using Nat.succ_le_succ_iff.mp hlen
          have : (rest.drop ([] : List Char).length) = rest := by
            simp
          rw [this] at hx
          exact ih rest hlen' hx
      | false =>
        simp only [Bool.false_eq_true, if_false]
        have hne : a ≠ c := by
          simp only [List.isPrefixOf, Bool.and_eq_true, beq_iff_eq] at hpre
          intro hac
          rw [hac] at hpre
          simp [List.isPrefixOf] at hpre
        intro hmem
        rcases List.mem_cons.mp hmem with rfl | hx
        · exact hne rfl
        · have hlen' : rest.length ≤ fuel := by
            simpa [List.length_cons] using Nat.succ_le_succ_iff.mp hlen
          exact ih rest hlen' hx

theorem not_mem_pyReplace_single {a : Char} {rep : List Char} (ha : a ∉ rep)
    (s : List Char) : a ∉ pyReplace [a] rep s :=
  not_mem_pyReplaceF_single ha s.length s (Nat.le_refl _)

/-- C4: counterexample — a turn that reaches the commit step appends the
AI reply with role `'system'` (youtube.py line 368), not role
`'assistant'` as the claim states. -/
theorem commit_role_counterexample :
    processTurn false [] (("hi").data) (.ok []) (fun _ => none) sampleTs
        (.ok (("yo").data)) =
      .ok ([mkUserMsg (("hi").data),
            { role := Role.system, content := ("yo").data, context := [] }],
           ("gpt-3.5-turbo-1106").data) ∧
    Role.system ≠ Role.assistant := by
  refine ⟨rfl, by decide⟩

/-- C4 (amended): every turn that reaches the commit step appends exactly
one message after the user message; its `content` is the full generated
reply, its `context` is exactly the harvested ContextItem list (empty when
augmentation is off), but its `role` is `system`, not `assistant`. -/
theorem commit_message_shape (youtube_on : Bool) (h : List Message)
    (u : List Char) (qg : Except PyError (List Char))
    (soupFor : List Char → Option (List Anchor)) (ts : TranscriptSource)
    (rg : Except PyError (List Char)) (nh : List Message) (model : List Char)
    (hok : processTurn youtube_on h u qg soupFor ts rg = .ok (nh, model)) :
    ∃ resp items, rg = .ok resp ∧
      nh = h ++ [mkUserMsg u] ++
        [{ role := Role.system, content := resp, context := items }] ∧
      (youtube_on = false → items = []) ∧
      (youtube_on = true → ∃ raw, qg = .ok raw ∧
        get_youtube_search_results (soupFor (cleanSearchQuery raw)) ts 3 =
          .ok items) := by
  cases youtube_on with
  | false =>
    cases rg with
    | error e => simp [processTurn] at hok
    | ok resp =>
      simp only [processTurn, Bool.false_eq_true, if_false,
        Except.ok.injEq, Prod.mk.injEq] at hok
      obtain ⟨hnh, _⟩ := hok
      refine ⟨resp, [], rfl, ?_, fun _ => rfl, fun htrue => absurd htrue (by decide)⟩
      rw [← hnh, List.append_assoc]
  | true =>
    cases qg with
    | error e => simp [processTurn] at hok
    | ok raw =>
      cases hharv : get_youtube_search_results (soupFor (cleanSearchQuery raw)) ts 3 with
      | error e =>
        simp only [processTurn, if_true, hharv] at hok
        exact Except.noConfusion hok
      | ok items =>
        cases rg with
        | error e =>
          simp only [processTurn, if_true, hharv] at hok
          exact Except.noConfusion hok
        | ok resp =>
          simp only [processTurn, if_true, hharv, Except.ok.injEq,
            Prod.mk.injEq] at hok
          obtain ⟨hnh, _⟩ := hok
          refine ⟨resp, items, rfl, ?_, fun hfalse => absurd hfalse (by decide),
            fun _ => ⟨raw, rfl, hharv⟩⟩
          rw [← hnh, List.append_assoc]

/-- Witness for `commit_message_shape` at a concrete committed turn with
augmentation off. -/
theorem commit_message_shape_witness :
    ∃ resp items, (Except.ok (("yo").data) : Except PyError (List Char)) = .ok resp ∧
      [mkUserMsg (("hi").data),
       { role := Role.system, content := ("yo").data, context := [] }] =
        ([] : List Message) ++ [mkUserMsg (("hi").data)] ++
          [{ role := Role.system, content := resp, context := items }] ∧
      (false = false → items = []) ∧
      (false = true → ∃ raw, (Except.ok ([] : List Char) : Except PyError (List Char)) = .ok raw ∧
        get_youtube_search_results ((fun _ => none) (cleanSearchQuery raw)) sampleTs 3 =
          .ok items) :=
  commit_message_shape false [] (("hi").data) (.ok []) (fun _ => none) sampleTs
    (.ok (("yo").data))
    [mkUserMsg (("hi").data),
     { role := Role.system, content := ("yo").data, context := [] }]
    (("gpt-3.5-turbo-1106").data) rfl

/-- C5: counterexample — when the query-derivation gateway call fails, the
transient search-query prompt is *not* removed: the exception propagates
with the prompt still appended, and the history differs from its state
before the derivation step. -/
theorem derive_prompt_counterexample :
    processTurn true [] (("hi").data) (.error .apiError) (fun _ => none)
        sampleTs (.ok (("yo").data)) =
      .error (.apiError,
        [mkUserMsg (("hi").data), searchQueryPrompt (("hi").data)]) ∧
    searchQueryPrompt (("hi").data) ∈
      [mkUserMsg (("hi").data), searchQueryPrompt (("hi").data)] ∧
    ¬ ([mkUserMsg (("hi").data), searchQueryPrompt (("hi").data)] =
        [mkUserMsg (("hi").data)]) := by
  refine ⟨rfl, by decide, by decide⟩

/-- C5 (amended): the transient search-query prompt is removed right after
a *successful* gateway call — no later outcome of the turn retains it —
but when the gateway call fails the exception propagates with the prompt
still appended to the history. -/
theorem derive_prompt_transient (h : List Message) (u : List Char)
    (soupFor : List Char → Option (List Anchor)) (ts : TranscriptSource)
    (rg : Except PyError (List Char)) :
    (∀ e, processTurn true h u (.error e) soupFor ts rg =
        .error (e, (h ++ [mkUserMsg u]) ++ [searchQueryPrompt u])) ∧
    (∀ raw e st, processTurn true h u (.ok raw) soupFor ts rg = .error (e, st) →
        st = h ++ [mkUserMsg u]) ∧
    (∀ raw nh model,
        processTurn true h u (.ok raw) soupFor ts rg = .ok (nh, model) →
        ∃ resp items, nh = (h ++ [mkUserMsg u]) ++
          [{ role := Role.system, content := resp, context := items }]) := by
  refine ⟨?_, ?_, ?_⟩
  · intro e
    simp [processTurn]
  · intro raw e st hst
    cases hharv : get_youtube_search_results (soupFor (cleanSearchQuery raw)) ts 3 with
    | error e' =>
      simp only [processTurn, if_true, hharv, Except.error.injEq,
        Prod.mk.injEq] at hst
      exact hst.2.symm
    | ok items =>
      cases rg with
      | error e' =>
        simp only [processTurn, if_true, hharv, Except.error.injEq,
          Prod.mk.injEq] at hst
        exact hst.2.symm
      | ok resp =>
        simp only [processTurn, if_true, hharv] at hst
        exact Except.noConfusion hst
  · intro raw nh model hok
    rcases commit_message_shape true h u (.ok raw) soupFor ts rg nh model hok
      with ⟨resp, items, _, hnh, _, _⟩
    exact ⟨resp, items, by rw [hnh, List.append_assoc]⟩

/-- Witness for `derive_prompt_transient`: with a successful derivation
and a failing search fetch, the propagated state is exactly the history
plus the user message — the prompt is gone. -/
theorem derive_prompt_transient_witness :
    ([mkUserMsg (("hi").data)] : List Message) =
      [] ++ [mkUserMsg (("hi").data)] :=
  (derive_prompt_transient [] (("hi").data) (fun _ => none) sampleTs
    (.ok (("yo").data))).2.1 (("q").data) PyError.typeError
    [mkUserMsg (("hi").data)] rfl

/-- Does the string contain two adjacent whitespace characters (an
internal run of length ≥ 2)? -/
def hasAdjacentSpace : List Char → Bool
  | a :: b :: rest => (pyIsSpace a && pyIsSpace b) || hasAdjacentSpace (b :: rest)
  | _ => false

/-- C6: counterexample — `replace('  ', ' ')` is a single pass, so the
model output `'a    b'` (four internal spaces) cleans to `'a  b'`, which
still contains an internal whitespace run of length 2; and because
`strip()` runs before the quote removal, `'" a "'` cleans to `' a '`,
which is not trimmed. -/
theorem clean_query_counterexample :
    cleanSearchQuery (("a    b").data) = ("a  b").data ∧
    hasAdjacentSpace (cleanSearchQuery (("a    b").data)) = true ∧
    cleanSearchQuery (("\" a \"").data) = (" a ").data ∧
    pyIsSpace ' ' = true := by
  refine ⟨rfl, by decide, rfl, by decide⟩

/-- C6 (amended): the post-processed query contains no double-quote
character, no newline and no tab — but whitespace runs are only collapsed
by a single pass of `'  '→' '` (runs of four or more spaces can survive as
shorter runs), and quote removal happens after trimming (so spaces that
were guarded by quotes can remain at the ends). -/
theorem clean_query_strips_quotes (s : List Char) :
    List.count '"' (cleanSearchQuery s) = 0 ∧
    List.count '\n' (cleanSearchQuery s) = 0 ∧
    List.count '\t' (cleanSearchQuery s) = 0 := by
  refine ⟨List.count_eq_zero.mpr (not_mem_pyReplace_single (by decide) _),
    List.count_eq_zero.mpr ?_, List.count_eq_zero.mpr ?_⟩
  · intro hmem
    rcases mem_pyReplace hmem with hx | hx
    · exact absurd hx (List.not_mem_nil _)
    · have h2 := mem_pyStrip hx
      rcases mem_pyReplace h2 with h3 | h3
      · exact absurd h3 (by decide)
      · rcases mem_pyReplace h3 with h4 | h4
        · exact absurd h4 (by decide)
        · exact absurd h4 (not_mem_pyReplace_single (by decide) _)
  · intro hmem
    rcases mem_pyReplace hmem with hx | hx
    · exact absurd hx (List.not_mem_nil _)
    · have h2 := mem_pyStrip hx
      rcases mem_pyReplace h2 with h3 | h3
      · exact absurd h3 (by decide)
      · exact absurd h3 (not_mem_pyReplace_single (by decide) _)
